import Mathlib

/-!
Verification of the background task execution engine of the repository
(`app/core/tasks.py`).  The Python module is shallowly embedded: the
`TaskManager` object becomes an explicit state record, each method becomes a
pure state-transforming function, and the asynchronous executor coroutine
`_run_task` is split at its suspension points into two atomic steps
(`runStart`, lines 113-114, and `runFinish`, lines 126-151).  Interleavings of
the engine's operations are modelled by a labelled step relation.

Modelling choices, each noted at the definition it concerns:
* `uuid.uuid4()` is modelled as a fresh-identifier counter (`nextId`); task ids
  are naturals.  Timestamps (`datetime.now(timezone.utc)`) are naturals
  supplied at each step.
* Opaque `Dict[str, Any]` payloads (`result`, `progress`) are modelled as
  `Option String`; what the claims use is only presence and equality.
* The work function is opaque: its run is summarised by a `TaskOutcome`
  (normal return, `asyncio.CancelledError`, or any other exception carrying
  the message `str(e)` and the traceback text `traceback.format_exc()`).
-/

/-- Statuses of `TaskStatus` (tasks.py lines 19-24). -/
inductive TaskStatus where
  | pending
  | running
  | completed
  | failed
  | cancelled
  deriving DecidableEq, Repr

/-- The terminal statuses, i.e. membership in the Python list
`[TaskStatus.COMPLETED, TaskStatus.FAILED, TaskStatus.CANCELLED]`
(tasks.py line 185). -/
def TaskStatus.isTerminal : TaskStatus → Bool
  | .completed => true
  | .failed => true
  | .cancelled => true
  | _ => false

/-- The dataclass `TaskInfo` (tasks.py lines 26-39).  `task_id` is a natural
because `uuid.uuid4()` is modelled by a counter; `result` and `progress` are
opaque payloads modelled as strings. -/
structure TaskInfo where
  task_id : Nat
  user_id : String
  project_id : Option String
  task_type : String
  status : TaskStatus
  created_at : Nat
  started_at : Option Nat
  completed_at : Option Nat
  result : Option String
  error : Option String
  progress : Option String
  deriving DecidableEq, Repr

/-- Summary of one run of the opaque work function inside `_run_task`:
`ok r` is a normal return of `r` (`r = none` models the function returning
`None`), `cancelled` is `asyncio.CancelledError` reaching line 133, and
`exn msg trace` is any other exception reaching line 139, where `msg` is
`str(e)` and `trace` is the `traceback.format_exc()` text (which the source
only logs, line 146). -/
inductive TaskOutcome where
  | ok (r : Option String)
  | cancelled
  | exn (msg : String) (trace : String)
  deriving DecidableEq, Repr

/-- The three outcome arms of `_run_task` (tasks.py lines 126-146): the
`COMPLETED`, `CANCELLED` and `FAILED` updates of the record.  Only `str(e)` is
stored into `error`; the traceback is not stored (it is only logged). -/
def applyOutcome (ti : TaskInfo) (o : TaskOutcome) (now : Nat) : TaskInfo :=
  match o with
  | .ok r => { ti with status := .completed, completed_at := some now, result := r }
  | .cancelled => { ti with status := .cancelled, completed_at := some now }
  | .exn msg _ => { ti with status := .failed, completed_at := some now, error := some msg }

/-- Python `key in dict` on the insertion-ordered association list that models
a `dict`. -/
def hasKey (l : List (Nat × TaskInfo)) (k : Nat) : Bool :=
  l.any (fun p => p.1 == k)

/-- Python `dict.get(key)` / `dict[key]` lookup. -/
def lookupTask : List (Nat × TaskInfo) → Nat → Option TaskInfo
  | [], _ => none
  | p :: l, k => if p.1 == k then some p.2 else lookupTask l k

/-- In-place mutation of a record held in the dict (`task_info.field = ...`):
the entry of key `k` is replaced, in place, by `f` of itself. -/
def updateTask (l : List (Nat × TaskInfo)) (k : Nat) (f : TaskInfo → TaskInfo) :
    List (Nat × TaskInfo) :=
  l.map (fun p => if p.1 == k then (p.1, f p.2) else p)

/-- Python `del dict[key]`. -/
def eraseKey (l : List (Nat × TaskInfo)) (k : Nat) : List (Nat × TaskInfo) :=
  l.filter (fun p => !(p.1 == k))

/-- Python `dict[key] = value`: replaces in place when the key is present,
otherwise appends at the end (insertion order). -/
def dictInsert (l : List (Nat × TaskInfo)) (k : Nat) (v : TaskInfo) :
    List (Nat × TaskInfo) :=
  if hasKey l k then l.map (fun p => if p.1 == k then (p.1, v) else p)
  else l ++ [(k, v)]

/-- Whether the scheduler probe `asyncio.get_running_loop()` (tasks.py
line 80) finds a running event loop or raises `RuntimeError` (the only
exception it can raise, caught at line 84). -/
inductive ProbeResult where
  | runningLoop
  | raisesRuntimeError
  deriving DecidableEq, Repr

/-- Ordering used by `get_user_tasks`: `sorted(key=lambda x: x.created_at,
reverse=True)` (tasks.py line 177), i.e. `created_at` descending. -/
def taskDescOrder (a b : TaskInfo) : Prop :=
  b.created_at ≤ a.created_at

instance : DecidableRel taskDescOrder :=
  fun a b => inferInstanceAs (Decidable (b.created_at ≤ a.created_at))

instance : IsTotal TaskInfo taskDescOrder :=
  ⟨fun a b => Nat.le_total b.created_at a.created_at⟩

instance : IsTrans TaskInfo taskDescOrder :=
  ⟨fun _ _ _ h h' => Nat.le_trans h' h⟩

/-- The state of a `TaskManager` (tasks.py lines 41-46): the `_tasks` dict,
the `_running_tasks` dict (the boolean says whether the stored
`Optional[asyncio.Task]` handle is not `None`; the source only ever stores
non-`None` handles), and the fresh-identifier counter modelling
`uuid.uuid4()`. -/
structure TaskManager where
  tasks : List (Nat × TaskInfo)
  running_tasks : List (Nat × Bool)
  nextId : Nat
  deriving DecidableEq, Repr

/-- `TaskManager.__init__` (tasks.py lines 44-46). -/
def initManager : TaskManager :=
  { tasks := [], running_tasks := [], nextId := 0 }

/-- `TaskManager.create_task` (tasks.py lines 48-104).  Returns the new state
and the returned `task_id`.  `uuid.uuid4()` is modelled by taking the counter
value as the id.  The dispatch (lines 77-100): when the probe finds a running
loop, `asyncio.ensure_future` is used and the handle is stored in
`_running_tasks`; when the probe raises `RuntimeError`, a daemon thread with a
private event loop runs the task and no handle is stored. -/
def TaskManager.create_task (m : TaskManager) (user_id : String) (task_type : String)
    (project_id : Option String) (now : Nat) (probe : ProbeResult) :
    TaskManager × Nat :=
  let task_id := m.nextId
  let task_info : TaskInfo :=
    { task_id := task_id
      user_id := user_id
      project_id := project_id
      task_type := task_type
      status := .pending
      created_at := now
      started_at := none
      completed_at := none
      result := none
      error := none
      progress := none }
  let tasks' := dictInsert m.tasks task_id task_info
  let running' :=
    match probe with
    | .runningLoop => m.running_tasks ++ [(task_id, true)]
    | .raisesRuntimeError => m.running_tasks
  ({ tasks := tasks', running_tasks := running', nextId := m.nextId + 1 }, task_id)

/-- First atomic phase of `_run_task` (tasks.py lines 113-114): status becomes
`RUNNING` and `started_at` is set.  There is no await point between the two
assignments, so they form one step. -/
def TaskManager.runStart (m : TaskManager) (task_id : Nat) (now : Nat) : TaskManager :=
  { m with tasks := (updateTask m.tasks task_id (fun ti =>
      { ti with status := .running, started_at := some now })) }

/-- Second atomic phase of `_run_task` (tasks.py lines 126-151): the record is
updated according to the outcome of the work function, and the `finally`
block deletes the `_running_tasks` handle when present. -/
def TaskManager.runFinish (m : TaskManager) (task_id : Nat) (o : TaskOutcome)
    (now : Nat) : TaskManager :=
  { m with
    tasks := updateTask m.tasks task_id (fun ti => applyOutcome ti o now),
    running_tasks := m.running_tasks.filter (fun q => !(q.1 == task_id)) }

/-- `TaskManager.get_task_status` (tasks.py lines 153-155). -/
def TaskManager.get_task_status (m : TaskManager) (task_id : Nat) : Option TaskInfo :=
  lookupTask m.tasks task_id

/-- `TaskManager.cancel_task` (tasks.py lines 157-165).  Returns `True` only
when `_running_tasks` holds a non-`None` handle for the id; the `.cancel()`
signal on the asyncio handle is modelled by the nondeterministic `cancelled`
outcome of `runFinish`, so the registry state is unchanged. -/
def TaskManager.cancel_task (m : TaskManager) (task_id : Nat) : Bool :=
  match m.running_tasks.find? (fun q => q.1 == task_id) with
  | some q => q.2
  | none => false

/-- `TaskManager.get_user_tasks` (tasks.py lines 167-177).  Note the Python
truthiness test `if task_type:` on line 174: a `None` filter and an
empty-string filter are both treated as absent. -/
def TaskManager.get_user_tasks (m : TaskManager) (user_id : String)
    (task_type : Option String) : List TaskInfo :=
  let user_tasks := (m.tasks.map Prod.snd).filter (fun t => t.user_id == user_id)
  let user_tasks :=
    match task_type with
    | some tt => if tt == "" then user_tasks
                 else user_tasks.filter (fun t => t.task_type == tt)
    | none => user_tasks
  List.insertionSort taskDescOrder user_tasks

/-- The removal condition of `cleanup_old_tasks` (tasks.py lines 185-187):
terminal status, truthy (i.e. set) `completed_at`, and age strictly greater
than `max_age_hours * 3600` seconds.  Natural subtraction matches the Python
float comparison for a record completed in the future: both sides then fail
the strict comparison. -/
def shouldRemove (ti : TaskInfo) (now : Nat) (max_age_hours : Nat) : Bool :=
  ti.status.isTerminal &&
    (match ti.completed_at with
     | some t => decide (now - t > max_age_hours * 3600)
     | none => false)

/-- `TaskManager.cleanup_old_tasks` (tasks.py lines 179-192): first collect
the ids to remove, then delete them one by one. -/
def TaskManager.cleanup_old_tasks (m : TaskManager) (now : Nat)
    (max_age_hours : Nat) : TaskManager :=
  let tasks_to_remove :=
    (m.tasks.filter (fun p => shouldRemove p.2 now max_age_hours)).map Prod.fst
  { m with tasks := tasks_to_remove.foldl (fun acc k => eraseKey acc k) m.tasks }

/-- `TaskManager.update_task_progress` (tasks.py lines 194-198): silently a
no-op for an unknown id; otherwise replaces the record's `progress` field,
with no check of the record's status. -/
def TaskManager.update_task_progress (m : TaskManager) (task_id : Nat)
    (progress : String) : TaskManager :=
  if hasKey m.tasks task_id then
    { m with tasks := (updateTask m.tasks task_id (fun ti =>
        { ti with progress := some progress })) }
  else m

/-- Labels for the operations of the engine: creation, the two executor
phases, cancellation, a progress update from inside a work function, and a
reaper sweep. -/
inductive Op where
  | create (user_id task_type : String) (project_id : Option String)
      (now : Nat) (probe : ProbeResult)
  | runStart (task_id : Nat) (now : Nat)
  | runFinish (task_id : Nat) (o : TaskOutcome) (now : Nat)
  | cancel (task_id : Nat)
  | progress (task_id : Nat) (p : String)
  | sweep (now : Nat) (max_age_hours : Nat)

/-- Status of a record as observed through the registry. -/
def statusOf (m : TaskManager) (task_id : Nat) : Option TaskStatus :=
  (lookupTask m.tasks task_id).map TaskInfo.status

/-- One atomic step of the engine.  The guards on the executor phases encode
the program order of `_run_task`: the coroutine body runs at most once per
created task, sets `RUNNING` before it can reach any outcome arm, and nothing
else writes `status`, so `runStart` fires only on a `PENDING` record and
`runFinish` only on a `RUNNING` one.  `cancel_task` does not change the
registry state (the asyncio-level cancellation signal surfaces later as a
`cancelled` outcome). -/
inductive Step : TaskManager → Op → TaskManager → Prop where
  | create (m : TaskManager) (uid tt : String) (pid : Option String)
      (now : Nat) (probe : ProbeResult) :
      Step m (.create uid tt pid now probe) (m.create_task uid tt pid now probe).1
  | runStart (m : TaskManager) (task_id now : Nat)
      (h : statusOf m task_id = some .pending) :
      Step m (.runStart task_id now) (m.runStart task_id now)
  | runFinish (m : TaskManager) (task_id : Nat) (o : TaskOutcome) (now : Nat)
      (h : statusOf m task_id = some .running) :
      Step m (.runFinish task_id o now) (m.runFinish task_id o now)
  | cancel (m : TaskManager) (task_id : Nat) :
      Step m (.cancel task_id) m
  | progress (m : TaskManager) (task_id : Nat) (p : String) :
      Step m (.progress task_id p) (m.update_task_progress task_id p)
  | sweep (m : TaskManager) (now max_age_hours : Nat) :
      Step m (.sweep now max_age_hours) (m.cleanup_old_tasks now max_age_hours)

/-- Finitely many engine steps from one state to another. -/
inductive Steps : TaskManager → TaskManager → Prop where
  | refl (m : TaskManager) : Steps m m
  | tail {m m' m'' : TaskManager} {op : Op} :
      Steps m m' → Step m' op m'' → Steps m m''

/-- States reachable from a fresh `TaskManager()`. -/
def Reachable (m : TaskManager) : Prop :=
  Steps initManager m

/-- Per-record well-formedness maintained by the engine: `started_at` is
absent exactly on `PENDING` records, `result` and `error` appear only in
their matching terminal status, a cancelled record has neither, and
`completed_at` is present exactly on terminal records. -/
def RecordInv (ti : TaskInfo) : Prop :=
  (ti.started_at = none ↔ ti.status = .pending) ∧
  (ti.result.isSome = true → ti.status = .completed) ∧
  (ti.error.isSome = true → ti.status = .failed) ∧
  (ti.status = .cancelled → ti.result = none ∧ ti.error = none) ∧
  (ti.completed_at.isSome = true ↔ ti.status.isTerminal = true)

/-- Global invariant: all stored records are well formed, all keys (of both
dicts) are below the fresh-identifier counter, and the registry's keys are
distinct (as in a Python dict); `_running_tasks` only holds non-`None`
handles. -/
def ManagerInv (m : TaskManager) : Prop :=
  (∀ p ∈ m.tasks, RecordInv p.2 ∧ p.1 < m.nextId) ∧
  (m.tasks.map Prod.fst).Nodup ∧
  (∀ q ∈ m.running_tasks, q.1 < m.nextId ∧ q.2 = true)

/-- The freshly allocated `PENDING` record built by `create_task`
(tasks.py lines 61-73). -/
def newTaskInfo (id : Nat) (uid tt : String) (pid : Option String) (now : Nat) : TaskInfo :=
  { task_id := id
    user_id := uid
    project_id := pid
    task_type := tt
    status := .pending
    created_at := now
    started_at := none
    completed_at := none
    result := none
    error := none
    progress := none }

/-- Whether `sub` occurs as a contiguous substring of `hay` (character
lists). -/
def charListContainsSub (sub : List Char) : List Char → Bool
  | [] => decide (sub = [])
  | c :: rest => sub.isPrefixOf (c :: rest) || charListContainsSub sub rest

/-- Whether the string `hay` contains the string `sub`; used to state that a
stored error text includes the traceback text. -/
def strContainsSub (hay sub : String) : Bool :=
  charListContainsSub sub.data hay.data

/-- A record matching the filters of a listing call, read off the spec's
description of `list(owner_id?, task_type?)`: the owner matches and, when a
task-type filter is given, the task type matches it. -/
def matchesFilters (uid : String) (tt : Option String) (t : TaskInfo) : Bool :=
  t.user_id == uid &&
    (match tt with
     | none => true
     | some s => t.task_type == s)

/-- Concrete run: one inline-dispatched task created on a live scheduler. -/
def mgrA : TaskManager :=
  (initManager.create_task "alice" "generate_rtm" none 10 .runningLoop).1

/-- Concrete run: the executor's start phase has run for task 0. -/
def mgrB : TaskManager := mgrA.runStart 0 11

/-- Concrete run: task 0 finished normally. -/
def mgrC : TaskManager := mgrB.runFinish 0 (.ok (some "res")) 12

/-- Concrete run: a second task created from a context with no scheduler
(isolated-worker path). -/
def mgrD : TaskManager :=
  (mgrC.create_task "bob" "coverage_analysis" none 13 .raisesRuntimeError).1

/-- The record of task 0 while running. -/
def recB : TaskInfo :=
  { task_id := 0
    user_id := "alice"
    project_id := none
    task_type := "generate_rtm"
    status := .running
    created_at := 10
    started_at := some 11
    completed_at := none
    result := none
    error := none
    progress := none }

/-- The record of task 0 after normal completion. -/
def recC : TaskInfo :=
  { recB with status := .completed, completed_at := some 12, result := some "res" }

theorem updateTask_cons (p : Nat × TaskInfo) (l : List (Nat × TaskInfo)) (k : Nat)
    (f : TaskInfo → TaskInfo) :
    updateTask (p :: l) k f =
      (p.1, if p.1 == k then f p.2 else p.2) :: updateTask l k f := by
  by_cases h : p.1 = k <;> simp [updateTask, h]

theorem lookupTask_updateTask_self (l : List (Nat × TaskInfo)) (k : Nat)
    (f : TaskInfo → TaskInfo) :
    lookupTask (updateTask l k f) k = (lookupTask l k).map f := by
  induction l with
  | nil => rfl
  | cons p l ih =>
    rw [updateTask_cons]
    by_cases h : p.1 = k
    · simp [lookupTask, h]
    · simp [lookupTask, h, ih]

theorem lookupTask_updateTask_ne (l : List (Nat × TaskInfo)) (k : Nat)
    (f : TaskInfo → TaskInfo) (k' : Nat) (h : k' ≠ k) :
    lookupTask (updateTask l k f) k' = lookupTask l k' := by
  induction l with
  | nil => rfl
  | cons p l ih =>
    rw [updateTask_cons]
    by_cases hp : p.1 = k'
    · have hk : ¬ p.1 = k := by omega
      simp [lookupTask, hp, hk]
      exact fun hc => absurd hc h
    · simp [lookupTask, hp, ih]

theorem keys_updateTask (l : List (Nat × TaskInfo)) (k : Nat) (f : TaskInfo → TaskInfo) :
    (updateTask l k f).map Prod.fst = l.map Prod.fst := by
  induction l with
  | nil => rfl
  | cons p l ih => rw [updateTask_cons]; simp [ih]

theorem mem_updateTask {l : List (Nat × TaskInfo)} {k : Nat} {f : TaskInfo → TaskInfo}
    {p : Nat × TaskInfo} (h : p ∈ updateTask l k f) :
    (p ∈ l ∧ p.1 ≠ k) ∨ ∃ q ∈ l, q.1 = k ∧ p = (q.1, f q.2) := by
  rcases List.mem_map.1 h with ⟨q, hq, hqe⟩
  by_cases hk : q.1 = k
  · right
    refine ⟨q, hq, hk, ?_⟩
    rw [← hqe]
    simp [hk]
  · left
    have hpq : p = q := by rw [← hqe]; simp [hk]
    subst hpq
    exact ⟨hq, hk⟩

theorem lookupTask_eq_none (l : List (Nat × TaskInfo)) (k : Nat)
    (h : ∀ p ∈ l, p.1 ≠ k) : lookupTask l k = none := by
  induction l with
  | nil => rfl
  | cons p l ih =>
    have h1 : ¬ p.1 = k := h p (by simp)
    simp [lookupTask, h1]
    exact ih (fun q hq => h q (by simp [hq]))

theorem hasKey_false_iff (l : List (Nat × TaskInfo)) (k : Nat) :
    hasKey l k = false ↔ ∀ p ∈ l, p.1 ≠ k := by
  simp [hasKey]

theorem dictInsert_of_fresh (l : List (Nat × TaskInfo)) (k : Nat) (v : TaskInfo)
    (h : hasKey l k = false) : dictInsert l k v = l ++ [(k, v)] := by
  simp [dictInsert, h]

theorem lookupTask_append_fresh (l : List (Nat × TaskInfo)) (k : Nat) (v : TaskInfo)
    (h : ∀ p ∈ l, p.1 ≠ k) : lookupTask (l ++ [(k, v)]) k = some v := by
  induction l with
  | nil => simp [lookupTask]
  | cons p l ih =>
    have h1 : ¬ p.1 = k := h p (by simp)
    simp only [List.cons_append, lookupTask]
    simp [h1]
    exact ih (fun q hq => h q (by simp [hq]))

theorem hasKey_eq_isSome (l : List (Nat × TaskInfo)) (k : Nat) :
    hasKey l k = (lookupTask l k).isSome := by
  induction l with
  | nil => rfl
  | cons p l ih =>
    by_cases h : p.1 = k
    · simp [hasKey, lookupTask, h]
    · have hb : (p.1 == k) = false := by simp [h]
      simp [hasKey, lookupTask, h, hb] at ih ⊢
      exact ih

theorem dictInsert_of_hasKey (l : List (Nat × TaskInfo)) (k : Nat) (v : TaskInfo)
    (h : hasKey l k = true) : dictInsert l k v = updateTask l k (fun _ => v) := by
  simp [dictInsert, updateTask, h]

theorem lookupTask_append_ne (l : List (Nat × TaskInfo)) (k : Nat) (v : TaskInfo)
    (k' : Nat) (h : k' ≠ k) : lookupTask (l ++ [(k, v)]) k' = lookupTask l k' := by
  induction l with
  | nil =>
    have : ¬ k = k' := by omega
    simp [lookupTask, this]
  | cons p l ih =>
    by_cases hp : p.1 = k'
    · simp [lookupTask, hp]
    · simp [lookupTask, hp, ih]

theorem lookupTask_dictInsert_self (l : List (Nat × TaskInfo)) (k : Nat) (v : TaskInfo) :
    lookupTask (dictInsert l k v) k = some v := by
  by_cases h : hasKey l k = true
  · rw [dictInsert_of_hasKey l k v h, lookupTask_updateTask_self]
    have := (hasKey_eq_isSome l k) ▸ h
    rcases Option.isSome_iff_exists.1 this with ⟨ti, hti⟩
    simp [hti]
  · have h' : hasKey l k = false := by simpa using h
    rw [dictInsert_of_fresh l k v h']
    exact lookupTask_append_fresh l k v ((hasKey_false_iff l k).1 h')

theorem lookupTask_dictInsert_ne (l : List (Nat × TaskInfo)) (k : Nat) (v : TaskInfo)
    (k' : Nat) (h : k' ≠ k) :
    lookupTask (dictInsert l k v) k' = lookupTask l k' := by
  by_cases hk : hasKey l k = true
  · rw [dictInsert_of_hasKey l k v hk, lookupTask_updateTask_ne _ _ _ _ h]
  · have h' : hasKey l k = false := by simpa using hk
    rw [dictInsert_of_fresh l k v h']
    exact lookupTask_append_ne l k v k' h

theorem mem_of_lookupTask {l : List (Nat × TaskInfo)} {k : Nat} {ti : TaskInfo}
    (h : lookupTask l k = some ti) : (k, ti) ∈ l := by
  induction l with
  | nil => simp [lookupTask] at h
  | cons p l ih =>
    by_cases hp : p.1 = k
    · simp [lookupTask, hp] at h
      have hpe : (k, ti) = p := by rw [← hp, ← h]
      rw [hpe]
      exact List.mem_cons_self _ _
    · simp [lookupTask, hp] at h
      exact List.mem_cons.2 (Or.inr (ih h))

theorem lookupTask_of_mem_nodup {l : List (Nat × TaskInfo)} {k : Nat} {ti : TaskInfo}
    (hnd : (l.map Prod.fst).Nodup) (hm : (k, ti) ∈ l) : lookupTask l k = some ti := by
  induction l with
  | nil => simp at hm
  | cons p l ih =>
    rcases List.mem_cons.1 hm with he | hm'
    · rw [← he]
      simp [lookupTask]
    · have hk : p.1 ≠ k := by
        intro hc
        have : k ∈ l.map Prod.fst := List.mem_map.2 ⟨(k, ti), hm', rfl⟩
        rw [List.map_cons, hc] at hnd
        exact (List.nodup_cons.1 hnd).1 this
      simp [lookupTask, hk]
      exact ih (List.nodup_cons.1 (List.map_cons _ _ _ ▸ hnd)).2 hm'

theorem eq_of_mem_nodup_keys {l : List (Nat × TaskInfo)} {p q : Nat × TaskInfo}
    (hnd : (l.map Prod.fst).Nodup) (hp : p ∈ l) (hq : q ∈ l) (hk : p.1 = q.1) :
    p = q := by
  have h1 : lookupTask l p.1 = some p.2 := lookupTask_of_mem_nodup hnd (by simpa using hp)
  have h2 : lookupTask l q.1 = some q.2 := lookupTask_of_mem_nodup hnd (by simpa using hq)
  rw [hk, h2] at h1
  have : q.2 = p.2 := by injection h1
  calc p = (p.1, p.2) := rfl
    _ = (q.1, q.2) := by rw [hk, this]
    _ = q := rfl

theorem foldl_eraseKey (ks : List Nat) (l : List (Nat × TaskInfo)) :
    ks.foldl (fun acc k => eraseKey acc k) l =
      l.filter (fun p => !(ks.contains p.1)) := by
  induction ks generalizing l with
  | nil => simp
  | cons k ks ih =>
    simp only [List.foldl_cons]
    rw [ih (eraseKey l k)]
    rw [eraseKey, List.filter_filter]
    apply List.filter_congr
    intro p _
    by_cases h : p.1 = k <;> simp [h]

theorem cleanup_tasks_eq_filter (m : TaskManager) (now max_age_hours : Nat)
    (hnd : (m.tasks.map Prod.fst).Nodup) :
    (m.cleanup_old_tasks now max_age_hours).tasks =
      m.tasks.filter (fun p => !(shouldRemove p.2 now max_age_hours)) := by
  show ((m.tasks.filter (fun p => shouldRemove p.2 now max_age_hours)).map Prod.fst).foldl
      (fun acc k => eraseKey acc k) m.tasks = _
  rw [foldl_eraseKey]
  apply List.filter_congr
  intro p hp
  by_cases h : shouldRemove p.2 now max_age_hours = true
  · have hm : p.1 ∈ (m.tasks.filter (fun q => shouldRemove q.2 now max_age_hours)).map Prod.fst :=
      List.mem_map.2 ⟨p, List.mem_filter.2 ⟨hp, h⟩, rfl⟩
    have hc : ((m.tasks.filter (fun q => shouldRemove q.2 now max_age_hours)).map
        Prod.fst).contains p.1 = true := by simpa using hm
    simp [h, hc]
    exact ⟨p.2, by simpa using hp, h⟩
  · have hf : shouldRemove p.2 now max_age_hours = false := by simpa using h
    have : ¬ p.1 ∈ (m.tasks.filter (fun q => shouldRemove q.2 now max_age_hours)).map Prod.fst := by
      intro hc
      rcases List.mem_map.1 hc with ⟨q, hq, hqe⟩
      rcases List.mem_filter.1 hq with ⟨hql, hqr⟩
      have := eq_of_mem_nodup_keys hnd hp hql (by omega)
      rw [this] at hf
      rw [hf] at hqr
      exact Bool.false_ne_true hqr
    simp [hf]
    simpa using this

theorem cancel_task_eq_false {m : TaskManager} {task_id : Nat}
    (h : ∀ b, (task_id, b) ∉ m.running_tasks) : m.cancel_task task_id = false := by
  unfold TaskManager.cancel_task
  have : m.running_tasks.find? (fun q => q.1 == task_id) = none := by
    rw [List.find?_eq_none]
    intro q hq hbe
    have : q.1 = task_id := by simpa using hbe
    exact h q.2 (by
      have : (task_id, q.2) = q := by rw [← this]
      rw [this]; exact hq)
  rw [this]

theorem statusOf_eq_some {m : TaskManager} {task_id : Nat} {s : TaskStatus}
    (h : statusOf m task_id = some s) :
    ∃ ti, lookupTask m.tasks task_id = some ti ∧ ti.status = s := by
  rcases Option.map_eq_some'.1 h with ⟨ti, hti, hs⟩
  exact ⟨ti, hti, hs⟩

theorem create_task_tasks (m : TaskManager) (uid tt : String) (pid : Option String)
    (now : Nat) (probe : ProbeResult) :
    (m.create_task uid tt pid now probe).1.tasks =
      dictInsert m.tasks m.nextId (newTaskInfo m.nextId uid tt pid now) := rfl

theorem create_tasks_eq (m : TaskManager) (uid tt : String) (pid : Option String)
    (now : Nat) (probe : ProbeResult) (hfresh : ∀ p ∈ m.tasks, p.1 < m.nextId) :
    (m.create_task uid tt pid now probe).1.tasks =
      m.tasks ++ [(m.nextId, newTaskInfo m.nextId uid tt pid now)] := by
  have hk : hasKey m.tasks m.nextId = false :=
    (hasKey_false_iff _ _).2 (fun p hp => Nat.ne_of_lt (hfresh p hp))
  show dictInsert m.tasks m.nextId _ = _
  rw [dictInsert_of_fresh _ _ _ hk]
  rfl

theorem inv_create (m : TaskManager) (uid tt : String) (pid : Option String)
    (now : Nat) (probe : ProbeResult) (hinv : ManagerInv m) :
    ManagerInv (m.create_task uid tt pid now probe).1 := by
  rcases hinv with ⟨hrec, hnd, hrun⟩
  have htasks := create_tasks_eq m uid tt pid now probe (fun p hp => (hrec p hp).2)
  refine ⟨?_, ?_, ?_⟩
  · intro p hp
    rw [htasks] at hp
    rcases List.mem_append.1 hp with hp | hp
    · exact ⟨(hrec p hp).1, Nat.lt_succ_of_lt (hrec p hp).2⟩
    · have hps : p = (m.nextId, newTaskInfo m.nextId uid tt pid now) :=
        List.mem_singleton.1 hp
      rw [hps]
      constructor
      · simp [RecordInv, newTaskInfo, TaskStatus.isTerminal]
      · exact Nat.lt_succ_self _
  · rw [htasks, List.map_append]
    rw [List.nodup_append]
    refine ⟨hnd, List.nodup_singleton _, ?_⟩
    intro a ha hb
    have := List.mem_map.1 ha
    rcases this with ⟨p, hp, hpe⟩
    have hlt : p.1 < m.nextId := (hrec p hp).2
    simp at hb
    omega
  · intro q hq
    show q.1 < m.nextId + 1 ∧ q.2 = true
    cases probe with
    | runningLoop =>
      rcases List.mem_append.1 hq with hq | hq
      · exact ⟨Nat.lt_succ_of_lt (hrun q hq).1, (hrun q hq).2⟩
      · have : q = (m.nextId, true) := List.mem_singleton.1 hq
        rw [this]
        exact ⟨Nat.lt_succ_self _, rfl⟩
    | raisesRuntimeError =>
      exact ⟨Nat.lt_succ_of_lt (hrun q hq).1, (hrun q hq).2⟩

theorem inv_updateTask {l : List (Nat × TaskInfo)} {n : Nat}
    (hrec : ∀ p ∈ l, RecordInv p.2 ∧ p.1 < n) (hnd : (l.map Prod.fst).Nodup)
    {id : Nat} {ti : TaskInfo} (hlk : lookupTask l id = some ti)
    {f : TaskInfo → TaskInfo} (hf : RecordInv (f ti)) :
    ∀ p ∈ updateTask l id f, RecordInv p.2 ∧ p.1 < n := by
  intro p hp
  rcases mem_updateTask hp with ⟨hpl, _⟩ | ⟨q, hql, hqk, hpe⟩
  · exact hrec p hpl
  · have hmem : (id, q.2) ∈ l := by
      have hq : (id, q.2) = q := by rw [← hqk]
      rw [hq]
      exact hql
    have hlq : lookupTask l id = some q.2 := lookupTask_of_mem_nodup hnd hmem
    have hq2 : q.2 = ti := by
      rw [hlq] at hlk
      injection hlk
    rw [hpe]
    refine ⟨?_, (hrec q hql).2⟩
    show RecordInv (f q.2)
    rw [hq2]
    exact hf

theorem recordInv_runStart {ti : TaskInfo} (h : RecordInv ti)
    (hs : ti.status = .pending) (now : Nat) :
    RecordInv { ti with status := .running, started_at := some now } := by
  rcases h with ⟨_, h2, h3, _, h5⟩
  have hres : ti.result = none := by
    rcases hr : ti.result with _ | v
    · rfl
    · have hc := h2 (by rw [hr]; rfl)
      rw [hs] at hc
      cases hc
  have herr : ti.error = none := by
    rcases hr : ti.error with _ | v
    · rfl
    · have hc := h3 (by rw [hr]; rfl)
      rw [hs] at hc
      cases hc
  have hcomp : ti.completed_at = none := by
    rcases hr : ti.completed_at with _ | v
    · rfl
    · have hc := h5.1 (by rw [hr]; rfl)
      rw [hs] at hc
      simp [TaskStatus.isTerminal] at hc
  simp [RecordInv, hres, herr, hcomp, TaskStatus.isTerminal]

theorem recordInv_applyOutcome {ti : TaskInfo} (h : RecordInv ti)
    (hs : ti.status = .running) (o : TaskOutcome) (now : Nat) :
    RecordInv (applyOutcome ti o now) := by
  rcases h with ⟨h1, h2, h3, _, h5⟩
  have hres : ti.result = none := by
    rcases hr : ti.result with _ | v
    · rfl
    · have hc := h2 (by rw [hr]; rfl)
      rw [hs] at hc
      cases hc
  have herr : ti.error = none := by
    rcases hr : ti.error with _ | v
    · rfl
    · have hc := h3 (by rw [hr]; rfl)
      rw [hs] at hc
      cases hc
  have hstart : ¬ ti.started_at = none := by
    intro hn
    have hc := h1.1 hn
    rw [hs] at hc
    cases hc
  cases o with
  | ok r =>
    simp [applyOutcome, RecordInv, hres, herr, hstart, TaskStatus.isTerminal]
  | cancelled =>
    simp [applyOutcome, RecordInv, hres, herr, hstart, TaskStatus.isTerminal]
  | exn msg trace =>
    simp [applyOutcome, RecordInv, hres, herr, hstart, TaskStatus.isTerminal]

theorem recordInv_of_lookup {m : TaskManager}
    (hrec : ∀ p ∈ m.tasks, RecordInv p.2 ∧ p.1 < m.nextId)
    {id : Nat} {ti : TaskInfo} (hlk : lookupTask m.tasks id = some ti) :
    RecordInv ti :=
  (hrec (id, ti) (mem_of_lookupTask hlk)).1

theorem inv_runStart {m : TaskManager} {task_id now : Nat} (hinv : ManagerInv m)
    (h : statusOf m task_id = some .pending) :
    ManagerInv (m.runStart task_id now) := by
  rcases hinv with ⟨hrec, hnd, hrun⟩
  rcases statusOf_eq_some h with ⟨ti, hlk, hs⟩
  refine ⟨?_, ?_, ?_⟩
  · show ∀ p ∈ updateTask m.tasks task_id
        (fun ti => { ti with status := .running, started_at := some now }),
        RecordInv p.2 ∧ p.1 < m.nextId
    exact inv_updateTask hrec hnd hlk
      (recordInv_runStart (recordInv_of_lookup hrec hlk) hs now)
  · show ((updateTask m.tasks task_id
        (fun ti => { ti with status := .running, started_at := some now })).map
        Prod.fst).Nodup
    rw [keys_updateTask]
    exact hnd
  · exact hrun

theorem inv_runFinish {m : TaskManager} {task_id : Nat} {o : TaskOutcome} {now : Nat}
    (hinv : ManagerInv m) (h : statusOf m task_id = some .running) :
    ManagerInv (m.runFinish task_id o now) := by
  rcases hinv with ⟨hrec, hnd, hrun⟩
  rcases statusOf_eq_some h with ⟨ti, hlk, hs⟩
  refine ⟨?_, ?_, ?_⟩
  · show ∀ p ∈ updateTask m.tasks task_id (fun ti => applyOutcome ti o now),
        RecordInv p.2 ∧ p.1 < m.nextId
    exact inv_updateTask hrec hnd hlk
      (recordInv_applyOutcome (recordInv_of_lookup hrec hlk) hs o now)
  · show ((updateTask m.tasks task_id (fun ti => applyOutcome ti o now)).map
        Prod.fst).Nodup
    rw [keys_updateTask]
    exact hnd
  · intro q hq
    exact hrun q (List.mem_of_mem_filter hq)

theorem recordInv_progress {ti : TaskInfo} (h : RecordInv ti) (p : String) :
    RecordInv { ti with progress := some p } := by
  rcases h with ⟨h1, h2, h3, h4, h5⟩
  exact ⟨h1, h2, h3, h4, h5⟩

theorem inv_progress {m : TaskManager} (task_id : Nat) (p : String)
    (hinv : ManagerInv m) : ManagerInv (m.update_task_progress task_id p) := by
  rcases hinv with ⟨hrec, hnd, hrun⟩
  unfold TaskManager.update_task_progress
  by_cases hk : hasKey m.tasks task_id = true
  · rw [if_pos hk]
    have hsome : (lookupTask m.tasks task_id).isSome = true := by
      rw [← hasKey_eq_isSome]
      exact hk
    rcases Option.isSome_iff_exists.1 hsome with ⟨ti, hlk⟩
    refine ⟨?_, ?_, ?_⟩
    · show ∀ q ∈ updateTask m.tasks task_id (fun ti => { ti with progress := some p }),
          RecordInv q.2 ∧ q.1 < m.nextId
      exact inv_updateTask hrec hnd hlk
        (recordInv_progress (recordInv_of_lookup hrec hlk) p)
    · show ((updateTask m.tasks task_id (fun ti => { ti with progress := some p })).map
          Prod.fst).Nodup
      rw [keys_updateTask]
      exact hnd
    · exact hrun
  · rw [if_neg hk]
    exact ⟨hrec, hnd, hrun⟩

theorem inv_sweep {m : TaskManager} (now max_age_hours : Nat)
    (hinv : ManagerInv m) : ManagerInv (m.cleanup_old_tasks now max_age_hours) := by
  rcases hinv with ⟨hrec, hnd, hrun⟩
  have htasks := cleanup_tasks_eq_filter m now max_age_hours hnd
  refine ⟨?_, ?_, ?_⟩
  · intro p hp
    rw [htasks] at hp
    exact hrec p (List.mem_of_mem_filter hp)
  · show ((m.cleanup_old_tasks now max_age_hours).tasks.map Prod.fst).Nodup
    rw [htasks]
    exact hnd.sublist ((List.filter_sublist _).map Prod.fst)
  · exact hrun

theorem inv_step {m m' : TaskManager} {op : Op} (hinv : ManagerInv m)
    (h : Step m op m') : ManagerInv m' := by
  cases h with
  | create uid tt pid now probe => exact inv_create m uid tt pid now probe hinv
  | runStart task_id now h => exact inv_runStart hinv h
  | runFinish task_id o now h => exact inv_runFinish hinv h
  | cancel task_id => exact hinv
  | progress task_id p => exact inv_progress task_id p hinv
  | sweep now max_age_hours => exact inv_sweep now max_age_hours hinv

theorem steps_inv {m m' : TaskManager} (hinv : ManagerInv m) (h : Steps m m') :
    ManagerInv m' := by
  induction h with
  | refl => exact hinv
  | tail hs hstep ih => exact inv_step ih hstep

theorem inv_init : ManagerInv initManager := by
  refine ⟨?_, ?_, ?_⟩ <;> simp [initManager]

theorem reachable_inv {m : TaskManager} (h : Reachable m) : ManagerInv m :=
  steps_inv inv_init h

theorem step_nextId_le {m m' : TaskManager} {op : Op} (h : Step m op m') :
    m.nextId ≤ m'.nextId := by
  cases h with
  | create uid tt pid now probe => exact Nat.le_succ _
  | runStart task_id now h => exact Nat.le_refl _
  | runFinish task_id o now h => exact Nat.le_refl _
  | cancel task_id => exact Nat.le_refl _
  | progress task_id p =>
    show m.nextId ≤ (m.update_task_progress task_id p).nextId
    unfold TaskManager.update_task_progress
    by_cases hk : hasKey m.tasks task_id = true
    · rw [if_pos hk]
    · rw [if_neg hk]
  | sweep now max_age_hours => exact Nat.le_refl _

theorem steps_nextId_le {m m' : TaskManager} (h : Steps m m') :
    m.nextId ≤ m'.nextId := by
  induction h with
  | refl => exact Nat.le_refl _
  | tail hs hstep ih => exact Nat.le_trans ih (step_nextId_le hstep)

theorem statusOf_runStart_self {m : TaskManager} {task_id : Nat} {ti : TaskInfo}
    (now : Nat) (hlk : lookupTask m.tasks task_id = some ti) :
    statusOf (m.runStart task_id now) task_id = some .running := by
  show (lookupTask (updateTask m.tasks task_id
      (fun ti => { ti with status := .running, started_at := some now }))
      task_id).map TaskInfo.status = some .running
  rw [lookupTask_updateTask_self, hlk]
  rfl

theorem statusOf_runStart_ne (m : TaskManager) (task_id now id : Nat)
    (h : id ≠ task_id) : statusOf (m.runStart task_id now) id = statusOf m id := by
  show (lookupTask (updateTask m.tasks task_id
      (fun ti => { ti with status := .running, started_at := some now }))
      id).map TaskInfo.status = _
  rw [lookupTask_updateTask_ne _ _ _ _ h]
  rfl

theorem statusOf_runFinish_self {m : TaskManager} {task_id : Nat} {ti : TaskInfo}
    (o : TaskOutcome) (now : Nat) (hlk : lookupTask m.tasks task_id = some ti) :
    statusOf (m.runFinish task_id o now) task_id =
      some (applyOutcome ti o now).status := by
  show (lookupTask (updateTask m.tasks task_id (fun ti => applyOutcome ti o now))
      task_id).map TaskInfo.status = _
  rw [lookupTask_updateTask_self, hlk]
  rfl

theorem statusOf_runFinish_ne (m : TaskManager) (task_id : Nat) (o : TaskOutcome)
    (now id : Nat) (h : id ≠ task_id) :
    statusOf (m.runFinish task_id o now) id = statusOf m id := by
  show (lookupTask (updateTask m.tasks task_id (fun ti => applyOutcome ti o now))
      id).map TaskInfo.status = _
  rw [lookupTask_updateTask_ne _ _ _ _ h]
  rfl

theorem applyOutcome_status_isTerminal (ti : TaskInfo) (o : TaskOutcome) (now : Nat) :
    (applyOutcome ti o now).status.isTerminal = true := by
  cases o <;> rfl

theorem lookupTask_update_progress (m : TaskManager) (task_id : Nat) (p : String)
    (id : Nat) :
    lookupTask (m.update_task_progress task_id p).tasks id =
      if id = task_id then
        (lookupTask m.tasks id).map (fun ti => { ti with progress := some p })
      else lookupTask m.tasks id := by
  unfold TaskManager.update_task_progress
  by_cases hk : hasKey m.tasks task_id = true
  · rw [if_pos hk]
    by_cases hid : id = task_id
    · subst hid
      show lookupTask (updateTask m.tasks id (fun ti => { ti with progress := some p })) id = _
      rw [lookupTask_updateTask_self, if_pos rfl]
    · show lookupTask (updateTask m.tasks task_id (fun ti => { ti with progress := some p })) id = _
      rw [lookupTask_updateTask_ne _ _ _ _ hid, if_neg hid]
  · rw [if_neg hk]
    by_cases hid : id = task_id
    · subst hid
      have hnone : lookupTask m.tasks id = none := by
        have := hasKey_eq_isSome m.tasks id
        rw [Bool.not_eq_true] at hk
        rw [hk] at this
        exact Option.not_isSome_iff_eq_none.1 (by rw [← this]; simp)
      rw [hnone, if_pos rfl]
      rfl
    · rw [if_neg hid]

theorem statusOf_update_progress (m : TaskManager) (task_id : Nat) (p : String)
    (id : Nat) :
    statusOf (m.update_task_progress task_id p) id = statusOf m id := by
  unfold statusOf
  rw [lookupTask_update_progress]
  by_cases hid : id = task_id
  · rw [if_pos hid]
    cases lookupTask m.tasks id <;> rfl
  · rw [if_neg hid]

theorem lookupTask_sweep {m : TaskManager} {now max_age_hours id : Nat} {ti : TaskInfo}
    (hnd : (m.tasks.map Prod.fst).Nodup)
    (h : lookupTask (m.cleanup_old_tasks now max_age_hours).tasks id = some ti) :
    lookupTask m.tasks id = some ti := by
  rw [cleanup_tasks_eq_filter m now max_age_hours hnd] at h
  have hm := mem_of_lookupTask h
  exact lookupTask_of_mem_nodup hnd (List.mem_of_mem_filter hm)

theorem lookupTask_create_ne (m : TaskManager) (uid tt : String) (pid : Option String)
    (now : Nat) (probe : ProbeResult) (id : Nat)
    (hfresh : ∀ p ∈ m.tasks, p.1 < m.nextId) (h : id ≠ m.nextId) :
    lookupTask (m.create_task uid tt pid now probe).1.tasks id =
      lookupTask m.tasks id := by
  rw [create_tasks_eq m uid tt pid now probe hfresh]
  exact lookupTask_append_ne _ _ _ _ h

theorem applyOutcome_started (ti : TaskInfo) (o : TaskOutcome) (now : Nat) :
    (applyOutcome ti o now).started_at = ti.started_at := by
  cases o <;> rfl

/-- Claim C1: across any single engine step (creation, either executor phase,
cancellation, a progress update, or a sweep), a record's status is unchanged,
or moves from `Pending` to `Running`, or from `Running` to a terminal status.
No step moves a status backward or from `Pending` directly to a terminal
status, so the statuses a record exhibits over time form a subsequence of
`Pending, Running, T` with `T` one of `Completed`, `Failed`, `Cancelled`. -/
theorem spec_C1_status_transitions {m m' : TaskManager} {op : Op} {task_id : Nat}
    {s s' : TaskStatus} (hre : Reachable m) (hstep : Step m op m')
    (hs : statusOf m task_id = some s) (hs' : statusOf m' task_id = some s') :
    s' = s ∨ (s = .pending ∧ s' = .running) ∨
      (s = .running ∧ s'.isTerminal = true) := by
  obtain ⟨hrec, hnd, hrun⟩ := reachable_inv hre
  cases hstep with
  | create uid tt pid now probe =>
    left
    by_cases hid : task_id = m.nextId
    · exfalso
      have hnone : lookupTask m.tasks task_id = none :=
        lookupTask_eq_none _ _ (fun p hp => by
          have := (hrec p hp).2
          omega)
      unfold statusOf at hs
      rw [hnone] at hs
      cases hs
    · have heq := lookupTask_create_ne m uid tt pid now probe task_id
        (fun p hp => (hrec p hp).2) hid
      unfold statusOf at hs hs'
      rw [heq] at hs'
      rw [hs] at hs'
      injection hs' with h2
      exact h2.symm
  | runStart tid now h =>
    by_cases hid : task_id = tid
    · subst hid
      right
      left
      rcases statusOf_eq_some h with ⟨ti, hlk, -⟩
      have h1 := statusOf_runStart_self now hlk
      rw [h1] at hs'
      injection hs' with h2
      constructor
      · rw [hs] at h
        injection h
      · exact h2.symm
    · left
      have heq := statusOf_runStart_ne m tid now task_id hid
      rw [heq, hs] at hs'
      injection hs' with h2
      exact h2.symm
  | runFinish tid o now h =>
    by_cases hid : task_id = tid
    · subst hid
      right
      right
      rcases statusOf_eq_some h with ⟨ti, hlk, -⟩
      have h1 := statusOf_runFinish_self o now hlk
      rw [h1] at hs'
      injection hs' with h2
      constructor
      · rw [hs] at h
        injection h
      · rw [← h2]
        exact applyOutcome_status_isTerminal ti o now
    · left
      have heq := statusOf_runFinish_ne m tid o now task_id hid
      rw [heq, hs] at hs'
      injection hs' with h2
      exact h2.symm
  | cancel tid =>
    left
    rw [hs] at hs'
    injection hs' with h2
    exact h2.symm
  | progress tid p =>
    left
    rw [statusOf_update_progress, hs] at hs'
    injection hs' with h2
    exact h2.symm
  | sweep now max_age_hours =>
    left
    rcases statusOf_eq_some hs' with ⟨ti, hlk', hts⟩
    have hlm := lookupTask_sweep hnd hlk'
    unfold statusOf at hs
    rw [hlm] at hs
    simp at hs
    rw [← hts, ← hs]

/-- Claim C2: in every reachable registry state, a record's `result` is
present only in status `Completed`, its `error` is present only in status
`Failed`, the two are never simultaneously present, and a `Cancelled` record
has neither. -/
theorem spec_C2_result_error_exclusive {m : TaskManager} (hre : Reachable m) :
    ∀ p ∈ m.tasks,
      (p.2.result.isSome = true → p.2.status = .completed) ∧
      (p.2.error.isSome = true → p.2.status = .failed) ∧
      ¬(p.2.result.isSome = true ∧ p.2.error.isSome = true) ∧
      (p.2.status = .cancelled → p.2.result = none ∧ p.2.error = none) := by
  intro p hp
  obtain ⟨hrec, -, -⟩ := reachable_inv hre
  obtain ⟨⟨h1, h2, h3, h4, h5⟩, -⟩ := hrec p hp
  refine ⟨h2, h3, ?_, h4⟩
  rintro ⟨hr, he⟩
  have hc := h2 hr
  have hf := h3 he
  rw [hc] at hf
  cases hf

theorem update_progress_running (m : TaskManager) (task_id : Nat) (p : String) :
    (m.update_task_progress task_id p).running_tasks = m.running_tasks := by
  unfold TaskManager.update_task_progress
  by_cases hk : hasKey m.tasks task_id = true
  · rw [if_pos hk]
  · rw [if_neg hk]

theorem update_progress_nextId (m : TaskManager) (task_id : Nat) (p : String) :
    (m.update_task_progress task_id p).nextId = m.nextId := by
  unfold TaskManager.update_task_progress
  by_cases hk : hasKey m.tasks task_id = true
  · rw [if_pos hk]
  · rw [if_neg hk]

/-- Claim C8: in every reachable state, `started_at` is absent exactly on the
`Pending` records (so it is present exactly when the status has reached
`Running` or beyond); moreover `started_at` is written exactly once — the
executor's start phase sets it, and no step ever changes an already-present
`started_at` of any record. -/
theorem spec_C8_started_at :
    (∀ m : TaskManager, Reachable m → ∀ p ∈ m.tasks,
        (p.2.started_at = none ↔ p.2.status = .pending)) ∧
    (∀ (m m' : TaskManager) (op : Op) (id : Nat) (ti ti' : TaskInfo),
      Reachable m → Step m op m' →
      lookupTask m.tasks id = some ti → lookupTask m'.tasks id = some ti' →
      ti.started_at.isSome = true → ti'.started_at = ti.started_at) := by
  constructor
  · intro m hre p hp
    obtain ⟨hrec, -, -⟩ := reachable_inv hre
    exact ((hrec p hp).1).1
  · intro m m' op id ti ti' hre hstep hlk hlk' hsome
    obtain ⟨hrec, hnd, hrun⟩ := reachable_inv hre
    cases hstep with
    | create uid tt pid now probe =>
      have hid : id ≠ m.nextId := by
        have := (hrec (id, ti) (mem_of_lookupTask hlk)).2
        omega
      rw [lookupTask_create_ne m uid tt pid now probe id
        (fun p hp => (hrec p hp).2) hid, hlk] at hlk'
      injection hlk' with h
      rw [← h]
    | runStart tid now h =>
      by_cases hid : id = tid
      · exfalso
        subst hid
        rcases statusOf_eq_some h with ⟨ti0, hlk0, hts0⟩
        rw [hlk0] at hlk
        injection hlk with he
        have hinv := (hrec (id, ti0) (mem_of_lookupTask hlk0)).1
        have hnone : ti0.started_at = none := hinv.1.2 hts0
        rw [← he, hnone] at hsome
        cases hsome
      · have heq : lookupTask (m.runStart tid now).tasks id = lookupTask m.tasks id := by
          show lookupTask (updateTask m.tasks tid
            (fun ti => { ti with status := .running, started_at := some now })) id = _
          exact lookupTask_updateTask_ne _ _ _ _ hid
        rw [heq, hlk] at hlk'
        injection hlk' with h2
        rw [← h2]
    | runFinish tid o now h =>
      by_cases hid : id = tid
      · subst hid
        have heq : lookupTask (m.runFinish id o now).tasks id =
            (lookupTask m.tasks id).map (fun ti => applyOutcome ti o now) := by
          show lookupTask (updateTask m.tasks id (fun ti => applyOutcome ti o now)) id = _
          exact lookupTask_updateTask_self _ _ _
        rw [heq, hlk] at hlk'
        injection hlk' with h2
        rw [← h2, applyOutcome_started]
      · have heq : lookupTask (m.runFinish tid o now).tasks id = lookupTask m.tasks id := by
          show lookupTask (updateTask m.tasks tid (fun ti => applyOutcome ti o now)) id = _
          exact lookupTask_updateTask_ne _ _ _ _ hid
        rw [heq, hlk] at hlk'
        injection hlk' with h2
        rw [← h2]
    | cancel tid =>
      rw [hlk] at hlk'
      injection hlk' with h2
      rw [← h2]
    | progress tid p =>
      rw [lookupTask_update_progress] at hlk'
      by_cases hid : id = tid
      · rw [if_pos hid, hlk] at hlk'
        injection hlk' with h2
        rw [← h2]
      · rw [if_neg hid, hlk] at hlk'
        injection hlk' with h2
        rw [← h2]
    | sweep now max_age_hours =>
      have := lookupTask_sweep hnd hlk'
      rw [hlk] at this
      injection this with h2
      rw [h2]

theorem step_preserves_not_running {m m' : TaskManager} {op : Op} {id : Nat}
    (h : Step m op m') (hlt : id < m.nextId)
    (hnr : ∀ b, (id, b) ∉ m.running_tasks) :
    id < m'.nextId ∧ ∀ b, (id, b) ∉ m'.running_tasks := by
  cases h with
  | create uid tt pid now probe =>
    refine ⟨Nat.lt_succ_of_lt hlt, ?_⟩
    intro b hb
    cases probe with
    | runningLoop =>
      rcases List.mem_append.1 hb with hb | hb
      · exact hnr b hb
      · have := List.mem_singleton.1 hb
        have : id = m.nextId := by injection this
        omega
    | raisesRuntimeError => exact hnr b hb
  | runStart tid now h => exact ⟨hlt, hnr⟩
  | runFinish tid o now h =>
    refine ⟨hlt, ?_⟩
    intro b hb
    exact hnr b (List.mem_of_mem_filter hb)
  | cancel tid => exact ⟨hlt, hnr⟩
  | progress tid p =>
    rw [update_progress_running, update_progress_nextId]
    exact ⟨hlt, hnr⟩
  | sweep now max_age_hours => exact ⟨hlt, hnr⟩

theorem steps_preserves_not_running {m m' : TaskManager} {id : Nat}
    (h : Steps m m') (hlt : id < m.nextId)
    (hnr : ∀ b, (id, b) ∉ m.running_tasks) :
    id < m'.nextId ∧ ∀ b, (id, b) ∉ m'.running_tasks := by
  induction h with
  | refl => exact ⟨hlt, hnr⟩
  | tail hs hstep ih => exact step_preserves_not_running hstep ih.1 ih.2

theorem cancel_task_true {m : TaskManager} {task_id : Nat}
    (h : m.cancel_task task_id = true) : (task_id, true) ∈ m.running_tasks := by
  unfold TaskManager.cancel_task at h
  cases hf : m.running_tasks.find? (fun q => q.1 == task_id) with
  | none => rw [hf] at h; cases h
  | some q =>
    rw [hf] at h
    have hmem := List.mem_of_find?_eq_some hf
    have hkey : q.1 = task_id := by
      have := List.find?_some hf
      simpa using this
    have hq : (task_id, true) = q := by rw [← hkey, ← h]
    rw [hq]
    exact hmem

/-- Claim C9: `create_task` returns a fresh id each time: the returned id is
never already a key of the registry and the new `Pending` record is appended
without overwriting any existing record; and any later `create_task` call —
after arbitrarily many further engine steps — returns a different id, so the
ids returned during one process lifetime are pairwise distinct. -/
theorem spec_C9_unique_ids :
    (∀ m : TaskManager, Reachable m →
      ∀ (uid tt : String) (pid : Option String) (now : Nat) (probe : ProbeResult),
        hasKey m.tasks (m.create_task uid tt pid now probe).2 = false ∧
        (m.create_task uid tt pid now probe).1.tasks =
          m.tasks ++ [((m.create_task uid tt pid now probe).2,
            newTaskInfo (m.create_task uid tt pid now probe).2 uid tt pid now)]) ∧
    (∀ m m₂ : TaskManager,
      ∀ (uid tt : String) (pid : Option String) (now : Nat) (probe : ProbeResult)
        (uid' tt' : String) (pid' : Option String) (now' : Nat) (probe' : ProbeResult),
      Steps (m.create_task uid tt pid now probe).1 m₂ →
      (m₂.create_task uid' tt' pid' now' probe').2 ≠
        (m.create_task uid tt pid now probe).2) := by
  constructor
  · intro m hre uid tt pid now probe
    obtain ⟨hrec, -, -⟩ := reachable_inv hre
    constructor
    · exact (hasKey_false_iff _ _).2 (fun p hp => Nat.ne_of_lt ((hrec p hp).2))
    · exact create_tasks_eq m uid tt pid now probe (fun p hp => (hrec p hp).2)
  · intro m m₂ uid tt pid now probe uid' tt' pid' now' probe' hsteps
    have hle : (m.create_task uid tt pid now probe).1.nextId ≤ m₂.nextId :=
      steps_nextId_le hsteps
    show m₂.nextId ≠ m.nextId
    have : (m.create_task uid tt pid now probe).1.nextId = m.nextId + 1 := rfl
    omega

/-- Claim C5: `cancel_task` returns a boolean that is `true` only when the
registry still holds an in-flight handle for the id — handles are stored only
by the inline-concurrent dispatch path; a task created via the
isolated-worker path (scheduler probe raised) never has a handle, so
`cancel_task` on its id returns `false` in the creation state and after any
number of further engine steps. -/
theorem spec_C5_cancel_isolated_false :
    (∀ m : TaskManager, Reachable m →
      ∀ (uid tt : String) (pid : Option String) (now : Nat) (m'' : TaskManager),
        Steps (m.create_task uid tt pid now .raisesRuntimeError).1 m'' →
        m''.cancel_task (m.create_task uid tt pid now .raisesRuntimeError).2 = false) ∧
    (∀ (m : TaskManager) (id : Nat),
      m.cancel_task id = true → (id, true) ∈ m.running_tasks) ∧
    (∀ (m : TaskManager) (uid tt : String) (pid : Option String) (now : Nat),
      (m.create_task uid tt pid now .raisesRuntimeError).1.running_tasks =
        m.running_tasks) := by
  refine ⟨?_, ?_, ?_⟩
  · intro m hre uid tt pid now m'' hsteps
    obtain ⟨-, -, hrun⟩ := reachable_inv hre
    have hlt : (m.create_task uid tt pid now .raisesRuntimeError).2 <
        (m.create_task uid tt pid now .raisesRuntimeError).1.nextId :=
      Nat.lt_succ_self _
    have hnr : ∀ b, ((m.create_task uid tt pid now .raisesRuntimeError).2, b) ∉
        (m.create_task uid tt pid now .raisesRuntimeError).1.running_tasks := by
      intro b hb
      have hlt2 := (hrun _ hb).1
      have hid : (m.create_task uid tt pid now .raisesRuntimeError).2 = m.nextId := rfl
      omega
    have hpres := steps_preserves_not_running hsteps hlt hnr
    exact cancel_task_eq_false hpres.2
  · intro m id h
    exact cancel_task_true h
  · intro m uid tt pid now
    rfl

/-- Claim C4: when the scheduler probe raises (its only failure,
`RuntimeError`), `create_task` does not propagate the failure: the call still
stores the new `Pending` record, still returns its id (the current counter
value), and takes the isolated-worker path — no cancellable handle is added
to `_running_tasks`. -/
theorem spec_C4_probe_fallback (m : TaskManager) (uid tt : String)
    (pid : Option String) (now : Nat) :
    (m.create_task uid tt pid now .raisesRuntimeError).2 = m.nextId ∧
    lookupTask (m.create_task uid tt pid now .raisesRuntimeError).1.tasks m.nextId =
      some (newTaskInfo m.nextId uid tt pid now) ∧
    (m.create_task uid tt pid now .raisesRuntimeError).1.running_tasks =
      m.running_tasks := by
  refine ⟨rfl, ?_, rfl⟩
  rw [create_task_tasks]
  exact lookupTask_dictInsert_self _ _ _

/-- Claim C6: for every registry state (a dict, hence with distinct keys) and
every age bound, the sweep keeps exactly the records that do not satisfy the
removal condition — terminal status with a set `completed_at` strictly older
than `max_age_hours` — and removes nothing else; in particular every
non-terminal record survives regardless of age, and the sweep leaves
`_running_tasks` and the id counter untouched. -/
theorem spec_C6_sweep_exact (m : TaskManager) (now max_age_hours : Nat)
    (hnd : (m.tasks.map Prod.fst).Nodup) :
    (m.cleanup_old_tasks now max_age_hours).tasks =
      m.tasks.filter (fun p => !(shouldRemove p.2 now max_age_hours)) ∧
    (∀ p ∈ m.tasks, p.2.status.isTerminal = false →
      p ∈ (m.cleanup_old_tasks now max_age_hours).tasks) ∧
    (m.cleanup_old_tasks now max_age_hours).running_tasks = m.running_tasks ∧
    (m.cleanup_old_tasks now max_age_hours).nextId = m.nextId := by
  refine ⟨cleanup_tasks_eq_filter m now max_age_hours hnd, ?_, rfl, rfl⟩
  intro p hp hterm
  rw [cleanup_tasks_eq_filter m now max_age_hours hnd]
  refine List.mem_filter.2 ⟨hp, ?_⟩
  simp [shouldRemove, hterm]

/-- Claim C10: `update_task_progress` is a silent no-op for an unknown id;
for a stored id it replaces exactly that record's `progress` field — all
other fields of that record, every other record, the handle dict and the id
counter are unchanged.  The update is applied unconditionally, with no check
of the record's status, so it also applies to records already in a terminal
status. -/
theorem spec_C10_progress_update (m : TaskManager) (task_id : Nat) (p : String) :
    (hasKey m.tasks task_id = false → m.update_task_progress task_id p = m) ∧
    (∀ ti, lookupTask m.tasks task_id = some ti →
      lookupTask (m.update_task_progress task_id p).tasks task_id =
        some { ti with progress := some p }) ∧
    (∀ id, id ≠ task_id →
      lookupTask (m.update_task_progress task_id p).tasks id =
        lookupTask m.tasks id) ∧
    (m.update_task_progress task_id p).running_tasks = m.running_tasks ∧
    (m.update_task_progress task_id p).nextId = m.nextId := by
  refine ⟨?_, ?_, ?_, update_progress_running m task_id p,
    update_progress_nextId m task_id p⟩
  · intro h
    unfold TaskManager.update_task_progress
    rw [if_neg (by rw [h]; exact Bool.false_ne_true)]
  · intro ti hti
    rw [lookupTask_update_progress, if_pos rfl, hti]
    rfl
  · intro id hid
    rw [lookupTask_update_progress, if_neg hid]

/-- Claim C3 (amended): when the work function raises any exception other
than cancellation, the executor catches it at its boundary (the step is an
ordinary state transition, nothing propagates to the creator), stores only
`str(e)` — the exception's message, without the traceback, which is merely
logged — into `error`, moves the record to `Failed` with `completed_at` set,
leaves every other record untouched, and releases the in-flight handle. -/
theorem spec_C3_failure_capture {m : TaskManager} {task_id : Nat} {ti : TaskInfo}
    (msg trace : String) (now : Nat)
    (hlk : lookupTask m.tasks task_id = some ti) :
    lookupTask (m.runFinish task_id (.exn msg trace) now).tasks task_id =
      some { ti with status := .failed, completed_at := some now, error := some msg } ∧
    (∀ id, id ≠ task_id →
      lookupTask (m.runFinish task_id (.exn msg trace) now).tasks id =
        lookupTask m.tasks id) ∧
    (m.runFinish task_id (.exn msg trace) now).running_tasks =
      m.running_tasks.filter (fun q => !(q.1 == task_id)) := by
  refine ⟨?_, ?_, rfl⟩
  · have heq : lookupTask (m.runFinish task_id (.exn msg trace) now).tasks task_id =
        (lookupTask m.tasks task_id).map
          (fun ti => applyOutcome ti (.exn msg trace) now) := by
      show lookupTask (updateTask m.tasks task_id
        (fun ti => applyOutcome ti (.exn msg trace) now)) task_id = _
      exact lookupTask_updateTask_self _ _ _
    rw [heq, hlk]
    rfl
  · intro id hid
    show lookupTask (updateTask m.tasks task_id
      (fun ti => applyOutcome ti (.exn msg trace) now)) id = _
    exact lookupTask_updateTask_ne _ _ _ _ hid

/-- Claim C7 (amended): for the optional owner filter and a task-type filter
that is either omitted or a non-empty string, `get_user_tasks` returns
exactly the stored records matching the given filters (a permutation of the
matching sub-multiset of the registry's values), ordered by `created_at`
descending, as a freshly computed finite list.  An empty-string task-type
filter is excluded because the source's truthiness test `if task_type:`
treats it as absent — see the counterexample theorem. -/
theorem spec_C7_list_filter_sorted (m : TaskManager) (uid : String)
    (tt : Option String) (htt : tt = none ∨ ∃ s, tt = some s ∧ s ≠ "") :
    (m.get_user_tasks uid tt).Perm
      ((m.tasks.map Prod.snd).filter (matchesFilters uid tt)) ∧
    (m.get_user_tasks uid tt).Sorted taskDescOrder := by
  constructor
  · rcases htt with h | ⟨s, hs, hne⟩
    · subst h
      show (List.insertionSort taskDescOrder
        ((m.tasks.map Prod.snd).filter (fun t => t.user_id == uid))).Perm _
      have hpred : (m.tasks.map Prod.snd).filter (matchesFilters uid none) =
          (m.tasks.map Prod.snd).filter (fun t => t.user_id == uid) :=
        List.filter_congr (fun a _ => by simp [matchesFilters])
      rw [hpred]
      exact List.perm_insertionSort _ _
    · subst hs
      show (List.insertionSort taskDescOrder
        (if (s == "") = true then
          (m.tasks.map Prod.snd).filter (fun t => t.user_id == uid)
        else ((m.tasks.map Prod.snd).filter (fun t => t.user_id == uid)).filter
          (fun t => t.task_type == s))).Perm _
      rw [if_neg (by simpa using hne)]
      refine (List.perm_insertionSort _ _).trans ?_
      rw [List.filter_filter]
      have hpred : (m.tasks.map Prod.snd).filter
          (fun a => (a.task_type == s) && (a.user_id == uid)) =
          (m.tasks.map Prod.snd).filter (matchesFilters uid (some s)) :=
        List.filter_congr (fun a _ => by
          simp [matchesFilters]
          exact Bool.and_comm _ _)
      rw [hpred]
  · exact List.sorted_insertionSort _ _

theorem reachA : Reachable mgrA :=
  Steps.tail (Steps.refl initManager)
    (Step.create initManager "alice" "generate_rtm" none 10 .runningLoop)

theorem reachB : Reachable mgrB :=
  Steps.tail reachA (Step.runStart mgrA 0 11 (by decide))

theorem reachC : Reachable mgrC :=
  Steps.tail reachB (Step.runFinish mgrB 0 (.ok (some "res")) 12 (by decide))

/-- Witness for C1 at a concrete step: the executor's start phase moves the
concrete task from `Pending` to `Running`, an allowed transition. -/
theorem spec_C1_witness :
    Reachable mgrA ∧ Step mgrA (.runStart 0 11) mgrB ∧
    statusOf mgrA 0 = some .pending ∧ statusOf mgrB 0 = some .running ∧
    (TaskStatus.running = TaskStatus.pending ∨
      (TaskStatus.pending = TaskStatus.pending ∧
        TaskStatus.running = TaskStatus.running) ∨
      (TaskStatus.pending = TaskStatus.running ∧
        TaskStatus.running.isTerminal = true)) :=
  ⟨reachA, Step.runStart mgrA 0 11 (by decide), by decide, by decide,
    @spec_C1_status_transitions mgrA mgrB (.runStart 0 11) 0 .pending .running
      reachA (Step.runStart mgrA 0 11 (by decide)) (by decide) (by decide)⟩

/-- Witness for C2 at a concrete reachable state: the completed record holds
a result, no error, and satisfies all exclusivity conditions. -/
theorem spec_C2_witness :
    Reachable mgrC ∧ (0, recC) ∈ mgrC.tasks ∧
    ((recC.result.isSome = true → recC.status = .completed) ∧
      (recC.error.isSome = true → recC.status = .failed) ∧
      ¬(recC.result.isSome = true ∧ recC.error.isSome = true) ∧
      (recC.status = .cancelled → recC.result = none ∧ recC.error = none)) :=
  ⟨reachC, by decide, spec_C2_result_error_exclusive reachC (0, recC) (by decide)⟩

/-- Witness for the amended C3 at a concrete running task: a `"boom"` failure
is recorded as `Failed` with `error = "boom"` and the handle released. -/
theorem spec_C3_witness :
    lookupTask mgrB.tasks 0 = some recB ∧
    (lookupTask (mgrB.runFinish 0 (.exn "boom" "tb") 20).tasks 0 =
      some { recB with status := .failed, completed_at := some 20, error := some "boom" } ∧
    (∀ id, id ≠ 0 →
      lookupTask (mgrB.runFinish 0 (.exn "boom" "tb") 20).tasks id =
        lookupTask mgrB.tasks id) ∧
    (mgrB.runFinish 0 (.exn "boom" "tb") 20).running_tasks =
      mgrB.running_tasks.filter (fun q => !(q.1 == 0))) :=
  ⟨by decide, spec_C3_failure_capture "boom" "tb" 20 (by decide)⟩

/-- Witness for C5: the isolated-worker task 1 of the concrete run cannot be
cancelled — `cancel_task` returns `false` on it right after creation. -/
theorem spec_C5_witness :
    Reachable mgrC ∧ mgrD.cancel_task 1 = false :=
  ⟨reachC, spec_C5_cancel_isolated_false.1 mgrC reachC "bob" "coverage_analysis"
    none 13 mgrD (Steps.refl mgrD)⟩

/-- Witness for C6 at a concrete state: sweeping with a one-hour bound at
time 5000 removes the completed record (aged 4988 seconds) and keeps the
other dicts intact. -/
theorem spec_C6_witness :
    (mgrC.tasks.map Prod.fst).Nodup ∧
    ((mgrC.cleanup_old_tasks 5000 1).tasks =
        mgrC.tasks.filter (fun p => !(shouldRemove p.2 5000 1)) ∧
      (∀ p ∈ mgrC.tasks, p.2.status.isTerminal = false →
        p ∈ (mgrC.cleanup_old_tasks 5000 1).tasks) ∧
      (mgrC.cleanup_old_tasks 5000 1).running_tasks = mgrC.running_tasks ∧
      (mgrC.cleanup_old_tasks 5000 1).nextId = mgrC.nextId) :=
  ⟨by decide, spec_C6_sweep_exact mgrC 5000 1 (by decide)⟩

/-- Witness for the amended C7 at a concrete state with the task-type filter
omitted: the listing is a permutation of the matching records and sorted by
creation time descending. -/
theorem spec_C7_witness :
    ((none : Option String) = none ∨ ∃ s, (none : Option String) = some s ∧ s ≠ "") ∧
    ((mgrC.get_user_tasks "alice" none).Perm
        ((mgrC.tasks.map Prod.snd).filter (matchesFilters "alice" none)) ∧
      (mgrC.get_user_tasks "alice" none).Sorted taskDescOrder) :=
  ⟨Or.inl rfl, spec_C7_list_filter_sorted mgrC "alice" none (Or.inl rfl)⟩

/-- Witness for C8 at concrete states: in the completed state the record's
`started_at` is present and its status is not `Pending`; and across the
concrete finish step the already-set `started_at` is unchanged. -/
theorem spec_C8_witness :
    Reachable mgrC ∧ (0, recC) ∈ mgrC.tasks ∧
    (recC.started_at = none ↔ recC.status = .pending) ∧
    (Reachable mgrB ∧ Step mgrB (.runFinish 0 (.ok (some "res")) 12) mgrC ∧
      lookupTask mgrB.tasks 0 = some recB ∧ lookupTask mgrC.tasks 0 = some recC ∧
      recB.started_at.isSome = true ∧ recC.started_at = recB.started_at) :=
  ⟨reachC, by decide, spec_C8_started_at.1 mgrC reachC (0, recC) (by decide),
    reachB, Step.runFinish mgrB 0 (.ok (some "res")) 12 (by decide), by decide,
    by decide, by decide,
    spec_C8_started_at.2 mgrB mgrC (.runFinish 0 (.ok (some "res")) 12) 0 recB recC
      reachB (Step.runFinish mgrB 0 (.ok (some "res")) 12 (by decide))
      (by decide) (by decide) (by decide)⟩

/-- Witness for C9 at concrete states: the id returned by the second creation
call is fresh for the registry, the new record is appended, and it differs
from the id a third call would return. -/
theorem spec_C9_witness :
    Reachable mgrC ∧
    (hasKey mgrC.tasks (mgrC.create_task "bob" "coverage_analysis" none 13
        .raisesRuntimeError).2 = false ∧
      (mgrC.create_task "bob" "coverage_analysis" none 13 .raisesRuntimeError).1.tasks =
        mgrC.tasks ++ [((mgrC.create_task "bob" "coverage_analysis" none 13
          .raisesRuntimeError).2,
          newTaskInfo (mgrC.create_task "bob" "coverage_analysis" none 13
            .raisesRuntimeError).2 "bob" "coverage_analysis" none 13)]) ∧
    (mgrD.create_task "eve" "file_processing" none 14 .runningLoop).2 ≠
      (mgrC.create_task "bob" "coverage_analysis" none 13 .raisesRuntimeError).2 :=
  ⟨reachC,
    spec_C9_unique_ids.1 mgrC reachC "bob" "coverage_analysis" none 13
      .raisesRuntimeError,
    spec_C9_unique_ids.2 mgrC mgrD "bob" "coverage_analysis" none 13
      .raisesRuntimeError "eve" "file_processing" none 14 .runningLoop
      (Steps.refl mgrD)⟩

/-- Witness for C10 at a concrete state whose record is already terminal: the
progress update still lands, and only the `progress` field changes. -/
theorem spec_C10_witness :
    lookupTask mgrC.tasks 0 = some recC ∧
    lookupTask ((mgrC.update_task_progress 0 "half").tasks) 0 =
      some { recC with progress := some "half" } :=
  ⟨by decide, (spec_C10_progress_update mgrC 0 "half").2.1 recC (by decide)⟩

/-- Counterexample to C3 as stated: at a concrete running task whose work
function raises an exception with message `"boom"` while the originating
traceback text (`traceback.format_exc()`) is available and non-empty, the
record transitions to `Failed` but the stored `error` is exactly the message
`"boom"`, which does not contain the traceback text — the source stores only
`str(e)` and merely logs the traceback (tasks.py lines 143, 146). -/
theorem spec_C3_cex :
    (lookupTask (mgrB.runFinish 0
        (.exn "boom" "Traceback: work line 1") 20).tasks 0).map TaskInfo.error =
      some (some "boom") ∧
    (lookupTask (mgrB.runFinish 0
        (.exn "boom" "Traceback: work line 1") 20).tasks 0).map TaskInfo.status =
      some .failed ∧
    "Traceback: work line 1" ≠ "" ∧
    strContainsSub "boom" "Traceback: work line 1" = false := by
  refine ⟨by decide, by decide, by decide, by decide⟩

/-- Counterexample to C7 as stated: with owner filter `"alice"` and
task-type filter the empty string, the concrete registry holds no record
matching the filters, yet `get_user_tasks` returns the `"generate_rtm"`
record — the truthiness test `if task_type:` (tasks.py line 174) silently
drops an empty-string filter, so the result is not "exactly the records
matching the given filters". -/
theorem spec_C7_cex :
    mgrA.get_user_tasks "alice" (some "") =
      [newTaskInfo 0 "alice" "generate_rtm" none 10] ∧
    (newTaskInfo 0 "alice" "generate_rtm" none 10).task_type ≠ "" ∧
    (mgrA.tasks.map Prod.snd).filter (matchesFilters "alice" (some "")) = [] := by
  refine ⟨by decide, by decide, by decide⟩
